import Mathlib

/-
  Verification of the ThreadSafePing library (ThreadSafePing.cpp / ThreadSafePing.h).

  The development shallowly embeds the protocol engine of the library:

  - machine integers are modelled as Nat with explicit reduction modulo 2 ^ 32
    (the width of unsigned long on the target) and modulo 2 ^ 16 for the
    uint16_t sequence counter;
  - the C float statistics fields are modelled as exact rationals;
  - the shared correlation table __pingReplies__ is a function from slot index
    to record, passed explicitly through the functions that mutate it;
  - external events (recvfrom results, parsed packet fields, the wall clock,
    the concurrently set stop flag, sendto success) enter through explicit
    oracle parameters, one record per loop iteration.
-/

namespace ThreadSafePing

/-- Reduction of a Nat to the range of a 32 bit unsigned long. -/
def UL (n : Nat) : Nat := n % 4294967296

/-- Unsigned 32 bit subtraction a - b, as performed on unsigned long values. -/
def wrapSub (a b : Nat) : Nat := (a % 4294967296 + 4294967296 - b % 4294967296) % 4294967296

/-- One record of the shared correlation table __pingReplies__
    (struct __pingReply_t__ in ThreadSafePing.h). -/
structure __pingReply_t__ where
  seqno : Nat
  elapsed_time : Nat
deriving DecidableEq

/-- Write the elapsed_time field of slot i, leaving its seqno and every other
    slot unchanged (the assignment at lines 399 and 406 of ThreadSafePing.cpp). -/
def updateSlot (tbl : Nat → __pingReply_t__) (i : Nat) (e : Nat) : Nat → __pingReply_t__ :=
  fun j => if j = i then ⟨(tbl i).seqno, e⟩ else tbl j

/-- lwIP echo reply type for IPv4 (ICMP_ER). -/
def ICMP_ER : Nat := 0

/-- lwIP echo request type for IPv4 (ICMP_ECHO). -/
def ICMP_ECHO : Nat := 8

/-- ICMPv6 echo request type, as defined in ThreadSafePing.h. -/
def ICMP6_ECHO_REQUEST : Nat := 128

/-- ICMPv6 echo reply type, as defined in ThreadSafePing.h. -/
def ICMP6_ECHO_REPLY : Nat := 129

/-- The acceptance filter of __ping_recv__ (line 388 of ThreadSafePing.cpp):
    the embedded identifier must be a valid socket number and the type field
    must be ICMP_ER or ICMP6_ECHO_REPLY.  off stands for LWIP_SOCKET_OFFSET
    and cap for MEMP_NUM_NETCONN, both platform configuration constants. -/
def acceptReply (off cap id t : Nat) : Bool :=
  !(decide (id < off) || decide (off + cap ≤ id) ||
    !(decide (t = ICMP_ER) || decide (t = ICMP6_ECHO_REPLY)))

/-- Handling of an accepted echo reply by the poll loop of the session owning
    socket sockfd (lines 394 - 409 of ThreadSafePing.cpp).  Returns the updated
    correlation table and whether __ping_recv__ returns now. -/
def handleAcceptedReply (off : Nat) (tbl : Nat → __pingReply_t__)
    (sockfd id sq nowMicros sentMicros : Nat) : (Nat → __pingReply_t__) × Bool :=
  if id = sockfd then
    if (tbl (sockfd - off)).seqno = sq then
      (updateSlot tbl (sockfd - off) (wrapSub nowMicros sentMicros), true)
    else
      (tbl, false)
  else
    if (tbl (id - off)).seqno = sq then
      (updateSlot tbl (id - off) (wrapSub nowMicros sentMicros), false)
    else
      (tbl, false)

/-- Parsed fields of one received buffer, as extracted by __ping_recv__
    after skipping the IP header.  longEnough is the length check, hdrLen the
    number of header bytes subtracted from the byte count. -/
structure RecvPacket where
  longEnough : Bool
  hdrLen : Int
  type : Nat
  id : Nat
  seqno : Nat
  sentMicros : Nat
  nowMicros : Nat
deriving DecidableEq

/-- External events observed by one iteration of the __ping_recv__ loop:
    the recvfrom return value, whether errno is EAGAIN or ENAVAIL, whether the
    elapsed wait is still below timeoutMicros, and the parsed packet fields
    when the return value is positive. -/
structure RecvIter where
  ret : Int
  retryable : Bool
  inTime : Bool
  pkt : RecvPacket
deriving DecidableEq

/-- The receive loop of __ping_recv__ (lines 318 - 411 of ThreadSafePing.cpp),
    driven by the list of per iteration events.  Returns none when the event
    list is exhausted before the loop returns; otherwise some (ok, bytes, tbl)
    where ok = true models the NULL return and ok = false the timeout return,
    bytes is the value left in the bytes out parameter and tbl the correlation
    table upon return. -/
def __ping_recv__ (off cap sockfd : Nat) (tbl : Nat → __pingReply_t__) (bytes : Int) :
    List RecvIter → Option (Bool × Int × (Nat → __pingReply_t__))
  | [] => none
  | it :: rest =>
    if (tbl (sockfd - off)).elapsed_time ≠ 0 then
      some (true, bytes, tbl)
    else
      let bytes := it.ret
      if bytes ≤ 0 then
        if it.retryable && it.inTime then
          __ping_recv__ off cap sockfd tbl bytes rest
        else
          some (false, bytes, tbl)
      else if !it.pkt.longEnough then
        __ping_recv__ off cap sockfd tbl bytes rest
      else
        let bytes := bytes - it.pkt.hdrLen
        if acceptReply off cap it.pkt.id it.pkt.type then
          let r := handleAcceptedReply off tbl sockfd it.pkt.id it.pkt.seqno
                     it.pkt.nowMicros it.pkt.sentMicros
          if r.2 then
            some (true, bytes, r.1)
          else
            __ping_recv__ off cap sockfd r.1 bytes rest
        else
          __ping_recv__ off cap sockfd tbl bytes rest

/-- The per session measuring variables of ThreadSafePing_t
    (sent, received, lost counters and the float statistics fields,
    the latter modelled as exact rationals). -/
structure RunStats where
  sent : Nat
  received : Nat
  lost : Nat
  elapsed : ℚ
  minT : ℚ
  maxT : ℚ
  meanT : ℚ
  varT : ℚ
  lastMean : ℚ
deriving DecidableEq

/-- The reset of the measuring variables at lines 139 - 144 of
    ThreadSafePing.cpp: counters zero, min at the 1e9 sentinel, max, mean and
    variance zero. -/
def initStats : RunStats :=
  { sent := 0, received := 0, lost := 0, elapsed := 0,
    minT := 1000000000, maxT := 0, meanT := 0, varT := 0, lastMean := 0 }

/-- The statistics update of one per sequence cycle (lines 173 - 195 of
    ThreadSafePing.cpp): sent is incremented, then, depending on whether the
    correlation slot shows a nonzero elapsed time, either the success branch
    updates received, elapsed, min, max, mean and variance, or the loss branch
    increments lost and zeroes elapsed. -/
def cycleUpdate (s : RunStats) (slotElapsed : Nat) : RunStats :=
  let s1 : RunStats := { s with sent := s.sent + 1 }
  let em : Nat := UL slotElapsed
  if em ≠ 0 then
    let e : ℚ := (em : ℚ) / 1000
    let r : Nat := s1.received + 1
    let newMin : ℚ := if e < s1.minT then e else s1.minT
    let newMax : ℚ := if e > s1.maxT then e else s1.maxT
    let lm : ℚ := s1.meanT
    let nm : ℚ := (((r : ℚ) - 1) * s1.meanT + e) / (r : ℚ)
    let nv : ℚ := if 1 < r then s1.varT + (e - lm) * (e - nm) else s1.varT
    { s1 with received := r, elapsed := e, minT := newMin, maxT := newMax,
              lastMean := lm, meanT := nm, varT := nv }
  else
    { s1 with lost := s1.lost + 1, elapsed := 0 }

/-- The error values returned by ping and its helpers, standing for the
    C string literals of ThreadSafePing.cpp. -/
inductive PingErr where
  | notConnected
  | invalidValue
  | outOfMemory
  | sendtoFailed
  | socketFailed
  | fcntlFailed
deriving DecidableEq

/-- External events of one per sequence cycle of the ping loop: the result of
    __ping_send__ (none on success), the elapsed_time value the correlation
    slot of this session holds when __ping_recv__ returns, the bytesReceived
    value after __ping_recv__, and the stop flag value observed by the loop
    condition of this cycle. -/
structure CycleOracle where
  sendErr : Option PingErr
  elapsed : Nat
  bytes : Int
  stopped : Bool

/-- The observable outcome of the send and receive loop of ping: the error it
    returned (none for the normal NULL return), the final measuring variables,
    whether closesocket was reached, and the arguments passed to the onReceive
    hook, in order. -/
structure LoopOut where
  err : Option PingErr
  stats : RunStats
  socketClosed : Bool
  onReceiveTrace : List Int
deriving DecidableEq

/-- The send and receive loop of ping (lines 166 - 212 of ThreadSafePing.cpp).
    seqno is the uint16_t loop counter, wrapping modulo 2 ^ 16; count the int
    argument, already validated nonnegative.  On a __ping_send__ failure the
    function returns immediately without reaching closesocket; on loop exit it
    reaches closesocket.  fuel bounds the number of iterations unfolded; none
    means the loop has not returned within fuel iterations. -/
def pingLoop (orc : Nat → CycleOracle) (count : Nat) :
    Nat → Nat → RunStats → List Int → Option LoopOut
  | 0, _, _, _ => none
  | fuel + 1, seqno, s, tr =>
    if (seqno ≤ count ∨ count = 0) ∧ (orc seqno).stopped = false then
      match (orc seqno).sendErr with
      | some e => some ⟨some e, s, false, tr⟩
      | none =>
          pingLoop orc count fuel ((seqno + 1) % 65536)
            (cycleUpdate s (orc seqno).elapsed) (tr ++ [(orc seqno).bytes])
    else
      some ⟨none, s, true, tr⟩

/-- Iterated cycle statistics update: the measuring variables after k further
    cycles starting at sequence number seqno. -/
def runStatsFrom (orc : Nat → CycleOracle) : Nat → Nat → RunStats → RunStats
  | _, 0, s => s
  | seqno, k + 1, s => runStatsFrom orc (seqno + 1) k (cycleUpdate s (orc seqno).elapsed)

/-- The onReceive arguments produced by k further cycles starting at sequence
    number seqno. -/
def runTraceFrom (orc : Nat → CycleOracle) : Nat → Nat → List Int
  | _, 0 => []
  | seqno, k + 1 => (orc seqno).bytes :: runTraceFrom orc (seqno + 1) k

/-- The observable outcome of one ping (count, interval, size, timeout) call:
    its return value, the measuring variables and the __size__ field on
    return, whether a raw socket was created, whether it was closed again, and
    the onReceive hook arguments. -/
structure PingOutcome where
  err : Option PingErr
  stats : RunStats
  sizeField : Int
  socketCreated : Bool
  socketClosed : Bool
  onReceiveTrace : List Int
deriving DecidableEq

/-- The ping (count, interval, size, timeout) member function
    (lines 127 - 213 of ThreadSafePing.cpp): connectivity guard, argument
    validation, reset of the measuring variables, raw socket creation, switch
    to non blocking mode, then the send and receive loop.  prior and priorSize
    are the values the measuring variables and the __size__ field hold on
    entry; connected, socketOk and fcntlOk are the outcomes of the external
    calls.  none means the loop did not return within fuel iterations. -/
def ping (connected : Bool) (prior : RunStats) (priorSize : Int)
    (socketOk fcntlOk : Bool) (orc : Nat → CycleOracle) (fuel : Nat)
    (count interval size timeout : Int) : Option PingOutcome :=
  if connected = false then
    some ⟨some .notConnected, prior, priorSize, false, false, []⟩
  else if count < 0 then
    some ⟨some .invalidValue, prior, priorSize, false, false, []⟩
  else if interval < 1 ∨ 3600 < interval then
    some ⟨some .invalidValue, prior, priorSize, false, false, []⟩
  else if size < 4 ∨ 256 < size then
    some ⟨some .invalidValue, prior, priorSize, false, false, []⟩
  else if timeout < 1 ∨ 30 < timeout then
    some ⟨some .invalidValue, prior, priorSize, false, false, []⟩
  else if socketOk = false then
    some ⟨some .socketFailed, initStats, size, false, false, []⟩
  else if fcntlOk = false then
    some ⟨some .fcntlFailed, initStats, size, true, true, []⟩
  else
    match pingLoop orc count.toNat fuel 1 initStats [] with
    | none => none
    | some out => some ⟨out.err, out.stats, size, true, out.socketClosed, out.onReceiveTrace⟩

/-- The inter echo wait phase of one cycle (lines 200 - 206 of
    ThreadSafePing.cpp): if the guard seqno less or equal count, or count equal
    zero, holds, the wait loop ticks once per observation pair (elapsed millis
    since the send instant, stop flag) while the elapsed time is below
    1000 times interval and the stop flag is unset; each tick invokes the
    onWait hook once.  Returns the number of onWait invocations. -/
def interEchoWait (count seqno interval : Nat) (tr : List (Nat × Bool)) : Nat :=
  if seqno ≤ count ∨ count = 0 then
    (tr.takeWhile (fun p => decide (p.1 < 1000 * interval) && !p.2)).length
  else 0

/-- The counter relation of the spec: sent equals received plus lost, and
    received is at most sent. -/
def countersInv (s : RunStats) : Prop :=
  s.sent = s.received + s.lost ∧ s.received ≤ s.sent

/-- The statistics invariant carried through the loop for the min, mean, max
    relation: before any success min holds the 1e9 sentinel and max and mean
    are zero; once a success was recorded, min is at most mean and mean at
    most max. -/
def statsInv (s : RunStats) : Prop :=
  (s.received = 0 → s.minT = 1000000000 ∧ s.maxT = 0 ∧ s.meanT = 0) ∧
  (1 ≤ s.received → s.minT ≤ s.meanT ∧ s.meanT ≤ s.maxT)

/-- Cycle oracle of a run in which every echo times out: sends succeed, the
    correlation slot stays zero, recvfrom left minus one in bytesReceived, the
    stop flag is never set. -/
def orcTO : Nat → CycleOracle := fun _ => ⟨none, 0, -1, false⟩

/-- The proposition that the all timeout, unstopped, send error free run with
    the given count never returns from its send and receive loop: no amount of
    fuel makes the loop exit. -/
def runNeverReturns (count : Nat) : Prop :=
  ∀ fuel, pingLoop orcTO count fuel 1 initStats [] = none

/-- Cycle oracle of a run whose first send fails with the couldnt sendto
    error. -/
def orcSendFail : Nat → CycleOracle := fun _ => ⟨some .sendtoFailed, 0, -1, false⟩

/-- Cycle oracle of a run whose every echo is answered after 500000
    microseconds. -/
def orcW9 : Nat → CycleOracle := fun _ => ⟨none, 500000, 100, false⟩

/-- A correlation table whose every slot expects sequence number 7 and shows
    no reply yet. -/
def tblW : Nat → __pingReply_t__ := fun _ => ⟨7, 0⟩

/-- A correlation table whose every slot expects sequence number 1 and shows
    no reply yet. -/
def tbl0 : Nat → __pingReply_t__ := fun _ => ⟨1, 0⟩

/-- Placeholder parsed packet fields for a would block receive iteration. -/
def pkt0 : RecvPacket := ⟨false, 0, 0, 0, 0, 0, 0⟩

/-- A receive iteration that returns minus one with errno EAGAIN after the
    timeout has expired. -/
def evTimeout : RecvIter := ⟨-1, true, false, pkt0⟩

/-- A receive iteration that returns zero with a non retryable errno. -/
def evZero : RecvIter := ⟨0, false, true, pkt0⟩

/-- Distinctive prior values of the measuring variables, used to observe that
    a failed validation leaves them untouched. -/
def priorW : RunStats :=
  { sent := 3, received := 1, lost := 2, elapsed := 5,
    minT := 7, maxT := 9, meanT := 8, varT := 1, lastMean := 8 }

/-- The statistics of a single cycle run whose echo was answered after 500000
    microseconds. -/
def statsW9 : RunStats :=
  { sent := 1, received := 1, lost := 0, elapsed := 500,
    minT := 500, maxT := 500, meanT := 500, varT := 0, lastMean := 0 }

/-- A cycle increments sent exactly once, in both the success and the loss
    branch. -/
theorem cycleUpdate_sent (s : RunStats) (e : Nat) : (cycleUpdate s e).sent = s.sent + 1 := by
  by_cases h : UL e ≠ 0 <;> simp [cycleUpdate, h]

/-- A cycle increments exactly one of received and lost. -/
theorem cycleUpdate_counts (s : RunStats) (e : Nat) :
    (cycleUpdate s e).received = s.received + 1 ∧ (cycleUpdate s e).lost = s.lost ∨
    (cycleUpdate s e).received = s.received ∧ (cycleUpdate s e).lost = s.lost + 1 := by
  by_cases h : UL e ≠ 0
  · exact Or.inl (by constructor <;> simp [cycleUpdate, h])
  · exact Or.inr (by constructor <;> simp [cycleUpdate, h])

/-- Any property preserved by the cycle statistics update holds for the final
    statistics of every returning run of the loop. -/
theorem pingLoop_preserve (P : RunStats → Prop)
    (hP : ∀ s e, P s → P (cycleUpdate s e)) (orc : Nat → CycleOracle) (count : Nat) :
    ∀ fuel seqno s tr out, pingLoop orc count fuel seqno s tr = some out → P s → P out.stats := by
  intro fuel
  induction fuel with
  | zero =>
      intro seqno s tr out h
      exact absurd h (by simp [pingLoop])
  | succ n ih =>
      intro seqno s tr out h hs
      rw [pingLoop] at h
      split at h
      · cases hse : (orc seqno).sendErr with
        | some e =>
            rw [hse] at h
            cases h
            exact hs
        | none =>
            rw [hse] at h
            exact ih _ _ _ _ h (hP s _ hs)
      · cases h
        exact hs

/-- Every returning run of the loop appends exactly one onReceive argument per
    cycle: the trace grows by exactly as much as the sent counter. -/
theorem pingLoop_trace_len (orc : Nat → CycleOracle) (count : Nat) :
    ∀ fuel seqno s tr out, pingLoop orc count fuel seqno s tr = some out →
      out.onReceiveTrace.length + s.sent = out.stats.sent + tr.length := by
  intro fuel
  induction fuel with
  | zero =>
      intro seqno s tr out h
      exact absurd h (by simp [pingLoop])
  | succ n ih =>
      intro seqno s tr out h
      rw [pingLoop] at h
      split at h
      · cases hse : (orc seqno).sendErr with
        | some e =>
            rw [hse] at h
            cases h
            dsimp only
            omega
        | none =>
            rw [hse] at h
            have := ih _ _ _ _ h
            rw [cycleUpdate_sent] at this
            simp at this
            omega
      · cases h
        dsimp only
        omega

/-- With count at least 65535, an unstopped run whose sends all succeed never
    exits the loop: the uint16_t sequence counter wraps from 65535 to 0 and
    the comparison seqno at most count stays true forever. -/
theorem pingLoop_unbounded_none (orc : Nat → CycleOracle) (count : Nat)
    (hcnt : 65535 ≤ count)
    (hs : ∀ i, (orc i).sendErr = none) (hst : ∀ i, (orc i).stopped = false) :
    ∀ fuel seqno s tr, seqno < 65536 → pingLoop orc count fuel seqno s tr = none := by
  intro fuel
  induction fuel with
  | zero =>
      intro seqno s tr _
      rfl
  | succ n ih =>
      intro seqno s tr hseq
      rw [pingLoop]
      rw [if_pos ⟨Or.inl (by omega), hst seqno⟩]
      rw [hs seqno]
      exact ih _ _ _ (Nat.mod_lt _ (by norm_num))

/-- With 1 at most count at most 65534, an unstopped run whose sends all
    succeed runs the remaining cycles one by one and exits through closesocket
    with the accumulated statistics and hook trace. -/
theorem pingLoop_ok_run (orc : Nat → CycleOracle) (count : Nat)
    (hs : ∀ i, (orc i).sendErr = none) (hst : ∀ i, (orc i).stopped = false)
    (h1 : 1 ≤ count) (h2 : count ≤ 65534) :
    ∀ fuel seqno s tr, 1 ≤ seqno → seqno ≤ count + 1 → count + 1 - seqno < fuel →
      pingLoop orc count fuel seqno s tr =
        some ⟨none, runStatsFrom orc seqno (count + 1 - seqno) s, true,
              tr ++ runTraceFrom orc seqno (count + 1 - seqno)⟩ := by
  intro fuel
  induction fuel with
  | zero =>
      intro seqno s tr _ _ hf
      omega
  | succ n ih =>
      intro seqno s tr hlo hhi hf
      rw [pingLoop]
      by_cases hc : seqno ≤ count
      · rw [if_pos ⟨Or.inl hc, hst seqno⟩]
        rw [hs seqno]
        have hmod : (seqno + 1) % 65536 = seqno + 1 := Nat.mod_eq_of_lt (by omega)
        rw [hmod]
        rw [ih (seqno + 1) _ _ (by omega) (by omega) (by omega)]
        have hk : count + 1 - seqno = (count - seqno) + 1 := by omega
        have hk2 : count + 1 - (seqno + 1) = count - seqno := by omega
        rw [hk, hk2]
        rw [runStatsFrom, runTraceFrom]
        simp
      · have hstop : seqno = count + 1 := by omega
        rw [if_neg]
        · have hk : count + 1 - seqno = 0 := by omega
          rw [hk]
          rw [runStatsFrom, runTraceFrom]
          simp
        · rintro ⟨h | h, -⟩
          · omega
          · omega

/-- The iterated cycle update adds k to the sent counter. -/
theorem runStatsFrom_sent (orc : Nat → CycleOracle) :
    ∀ k seqno s, (runStatsFrom orc seqno k s).sent = s.sent + k := by
  intro k
  induction k with
  | zero =>
      intro seqno s
      rfl
  | succ n ih =>
      intro seqno s
      rw [runStatsFrom, ih, cycleUpdate_sent]
      omega

/-- When every cycle observes an empty correlation slot, the iterated cycle
    update adds k to sent and lost, zeroes the last elapsed time and leaves
    every other measuring variable unchanged. -/
theorem runStatsFrom_all_lost (orc : Nat → CycleOracle) (hto : ∀ i, (orc i).elapsed = 0) :
    ∀ k seqno s, s.elapsed = 0 →
      runStatsFrom orc seqno k s =
        ⟨s.sent + k, s.received, s.lost + k, 0, s.minT, s.maxT, s.meanT, s.varT, s.lastMean⟩ := by
  intro k
  induction k with
  | zero =>
      intro seqno s hse
      show s = _
      cases s
      simp_all
  | succ n ih =>
      intro seqno s hse
      rw [runStatsFrom]
      have hcy : cycleUpdate s (orc seqno).elapsed =
          { s with sent := s.sent + 1, lost := s.lost + 1, elapsed := 0 } := by
        rw [hto seqno]
        unfold cycleUpdate
        rw [if_neg (by simp [UL])]
      rw [hcy, ih]
      · simp
        omega
      · rfl

/-- C1: for every accepted echo reply carrying identifier id and sequence
    number sq, the poll loop of the session owning sockfd writes the elapsed
    time, current microseconds minus the embedded send timestamp, into the
    correlation slot of id iff that slot holds expected sequence number sq; on
    a sequence mismatch the table is left unchanged and polling continues; and
    the write terminates the polling session's wait iff id is the session's
    own socket handle. -/
theorem correlation_write_iff_seq_matches (off : Nat) (tbl : Nat → __pingReply_t__)
    (sockfd id sq now snt : Nat) (_hid : off ≤ id) (_hsock : off ≤ sockfd) :
    ((tbl (id - off)).seqno = sq →
      (handleAcceptedReply off tbl sockfd id sq now snt).1
        = updateSlot tbl (id - off) (wrapSub now snt)) ∧
    ((tbl (id - off)).seqno ≠ sq →
      (handleAcceptedReply off tbl sockfd id sq now snt).1 = tbl ∧
      (handleAcceptedReply off tbl sockfd id sq now snt).2 = false) ∧
    ((handleAcceptedReply off tbl sockfd id sq now snt).2 = true ↔
      (tbl (id - off)).seqno = sq ∧ id = sockfd) := by
  unfold handleAcceptedReply
  by_cases h1 : id = sockfd
  · subst h1
    by_cases h2 : (tbl (id - off)).seqno = sq
    · simp [h2]
    · simp [h2]
  · by_cases h2 : (tbl (id - off)).seqno = sq
    · simp [h1, h2]
    · simp [h1, h2]

/-- C1 witness: in a table expecting sequence 7 everywhere, session 55
    processes a reply for id 56 with sequence 7: the slot of 56 is written and
    the wait of session 55 does not terminate. -/
theorem correlation_write_witness :
    ((54 ≤ 56 ∧ 54 ≤ 55) ∧
     (((tblW (56 - 54)).seqno = 7 →
        (handleAcceptedReply 54 tblW 55 56 7 1000 400).1
          = updateSlot tblW (56 - 54) (wrapSub 1000 400)) ∧
      ((tblW (56 - 54)).seqno ≠ 7 →
        (handleAcceptedReply 54 tblW 55 56 7 1000 400).1 = tblW ∧
        (handleAcceptedReply 54 tblW 55 56 7 1000 400).2 = false) ∧
      ((handleAcceptedReply 54 tblW 55 56 7 1000 400).2 = true ↔
        (tblW (56 - 54)).seqno = 7 ∧ 56 = 55))) :=
  ⟨⟨by decide, by decide⟩,
   correlation_write_iff_seq_matches 54 tblW 55 56 7 1000 400 (by decide) (by decide)⟩

/-- C3: a run with valid arguments whose first __ping_send__ fails returns the
    send error with the socket created but never closed: the send failure exit
    path of the loop leaks the socket handle, contradicting the guaranteed
    cleanup the spec states. -/
theorem send_failure_leaks_socket :
    ping true initStats 0 true true orcSendFail 5 4 1 32 1
      = some ⟨some .sendtoFailed, initStats, 32, true, false, []⟩ := by decide

/-- C4 counterexample: with the platform values LWIP_SOCKET_OFFSET 54 and
    MEMP_NUM_NETCONN 16, the acceptance filter accepts a packet whose type is
    the ICMPv6 echo reply type 129 even for an IPv4 session, whose echo reply
    type is 0: the filter never consults the session's address family, so the
    other family's reply type is not ignored. -/
theorem acceptReply_accepts_other_family :
    acceptReply 54 16 54 ICMP6_ECHO_REPLY = true ∧ ICMP6_ECHO_REPLY ≠ ICMP_ER := by decide

/-- C4 amended: a parsed packet is accepted iff its embedded identifier is a
    valid slot index and its type is the IPv4 echo reply type 0 or the ICMPv6
    echo reply type 129, independently of the session's address family; echo
    requests of either family, types 8 and 128, are always ignored. -/
theorem acceptReply_characterization :
    (∀ off cap id t, acceptReply off cap id t = true ↔
        (off ≤ id ∧ id < off + cap ∧ (t = ICMP_ER ∨ t = ICMP6_ECHO_REPLY))) ∧
    (∀ off cap id, acceptReply off cap id ICMP_ECHO = false ∧
        acceptReply off cap id ICMP6_ECHO_REQUEST = false) := by
  constructor
  · intro off cap id t
    simp [acceptReply, ICMP_ER, ICMP6_ECHO_REPLY]
    omega
  · intro off cap id
    constructor
    · simp [acceptReply, ICMP_ECHO, ICMP_ER, ICMP6_ECHO_REPLY]
    · simp [acceptReply, ICMP6_ECHO_REQUEST, ICMP_ER, ICMP6_ECHO_REPLY]

/-- C4 amended witness: identifier 60 with the IPv4 echo reply type is
    accepted. -/
theorem acceptReply_characterization_witness :
    acceptReply 54 16 60 ICMP_ER = true :=
  (acceptReply_characterization.1 54 16 60 ICMP_ER).mpr (by decide)

/-- C5: when the connectivity guard passes, any argument tuple with count
    negative, or interval outside 1 to 3600, or size outside 4 to 256, or
    timeout outside 1 to 30, makes ping return the invalid value error before
    any network activity: no socket is created or closed, the measuring
    variables and the size field keep their prior values, and no hook runs. -/
theorem ping_invalid_value (prior : RunStats) (priorSize : Int) (socketOk fcntlOk : Bool)
    (orc : Nat → CycleOracle) (fuel : Nat) (count interval size timeout : Int)
    (hbad : count < 0 ∨ interval < 1 ∨ 3600 < interval ∨ size < 4 ∨ 256 < size ∨
            timeout < 1 ∨ 30 < timeout) :
    ping true prior priorSize socketOk fcntlOk orc fuel count interval size timeout
      = some ⟨some .invalidValue, prior, priorSize, false, false, []⟩ := by
  unfold ping
  split_ifs <;> first | rfl | simp_all

/-- C5 witness: a call with count equal minus one and otherwise default
    arguments fails with the invalid value error and leaves the distinctive
    prior statistics untouched. -/
theorem ping_invalid_value_witness :
    ((-1 : Int) < 0 ∨ (1 : Int) < 1 ∨ (3600 : Int) < 1 ∨ (32 : Int) < 4 ∨ (256 : Int) < 32 ∨
        (1 : Int) < 1 ∨ (30 : Int) < 1) ∧
    ping true priorW 64 true true orcTO 5 (-1) 1 32 1
      = some ⟨some .invalidValue, priorW, 64, false, false, []⟩ :=
  ⟨by decide,
   ping_invalid_value priorW 64 true true orcTO 5 (-1) 1 32 1 (by decide)⟩

/-- C7 counterexample: with count 1, directly after the final sequence number
    seqno equal count equal 1, an interval of 1 second and a first observation
    of 0 elapsed milliseconds with the stop flag unset, the session performs
    the inter echo wait and invokes the onWait hook once, not zero times. -/
theorem wait_after_final_seqno : interEchoWait 1 1 1 [(0, false)] = 1 := by decide

/-- C7 amended: the guard of the inter echo wait is the loop continue
    condition, seqno at most count or count zero, so the wait phase also runs
    after the final sequence number of a bounded run; no onWait tick occurs
    once seqno exceeds count of a bounded run, at least one tick occurs at
    seqno equal count when the first observation is below the interval with
    the stop flag unset, and no tick occurs when the first observation already
    shows the stop flag. -/
theorem interEchoWait_guard :
    (∀ count seqno interval tr, count ≠ 0 → count < seqno →
        interEchoWait count seqno interval tr = 0) ∧
    (∀ count interval t tr, 1 ≤ count → t < 1000 * interval →
        1 ≤ interEchoWait count count interval ((t, false) :: tr)) ∧
    (∀ count seqno interval t tr, interEchoWait count seqno interval ((t, true) :: tr) = 0) := by
  refine ⟨?_, ?_, ?_⟩
  · intro count seqno interval tr hc hlt
    unfold interEchoWait
    rw [if_neg]
    rintro (h | h) <;> omega
  · intro count interval t tr _ ht
    unfold interEchoWait
    rw [if_pos (Or.inl le_rfl)]
    rw [List.takeWhile]
    simp [ht]
  · intro count seqno interval t tr
    unfold interEchoWait
    split
    · rw [List.takeWhile]
      simp
    · rfl

/-- C7 amended witness: at seqno equal count equal 3 with interval 2 seconds
    and a first observation of 5 milliseconds, at least one onWait tick is
    performed. -/
theorem interEchoWait_guard_witness :
    (1 ≤ 3 ∧ 5 < 1000 * 2) ∧ 1 ≤ interEchoWait 3 3 2 [(5, false)] :=
  ⟨⟨by decide, by decide⟩, interEchoWait_guard.2.1 3 2 5 [] (by decide) (by decide)⟩

/-- C2: the three counters start at zero, every completed per sequence cycle
    increments sent exactly once and then exactly one of received and lost, so
    after every completed cycle, and at the end of every returning run, the
    counters satisfy sent equal received plus lost and received at most
    sent. -/
theorem counters_relation :
    countersInv initStats ∧
    (∀ s e, countersInv s → countersInv (cycleUpdate s e)) ∧
    (∀ orc count fuel out, pingLoop orc count fuel 1 initStats [] = some out →
        countersInv out.stats) := by
  have hstep : ∀ (s : RunStats) (e : Nat), countersInv s → countersInv (cycleUpdate s e) := by
    intro s e hs
    have h1 := cycleUpdate_sent s e
    have h2 := cycleUpdate_counts s e
    unfold countersInv at *
    rcases h2 with ⟨ha, hb⟩ | ⟨ha, hb⟩ <;> omega
  refine ⟨⟨rfl, le_refl 0⟩, hstep, ?_⟩
  intro orc count fuel out h
  exact pingLoop_preserve countersInv hstep orc count fuel 1 initStats [] out h ⟨rfl, le_refl 0⟩

/-- C2 witness: the counter relation after one lost cycle from the initial
    statistics. -/
theorem counters_relation_witness : countersInv (cycleUpdate initStats 0) :=
  counters_relation.2.1 initStats 0 counters_relation.1

/-- C10: the sequence counter is a uint16_t compared against the int count.
    For count between 1 and 65534, an unstopped run without fatal send error
    performs exactly count send cycles and terminates through closesocket; for
    count at least 65535 the exit condition is never reached, because seqno
    wraps from 65535 to 0, so without stop or fatal send error the loop never
    returns, whatever the fuel. -/
theorem seqno_wrap_termination :
    (∀ orc count fuel, 1 ≤ count → count ≤ 65534 → count < fuel →
        (∀ i, (orc i).sendErr = none) → (∀ i, (orc i).stopped = false) →
        pingLoop orc count fuel 1 initStats [] =
          some ⟨none, runStatsFrom orc 1 count initStats, true, runTraceFrom orc 1 count⟩ ∧
        (runStatsFrom orc 1 count initStats).sent = count) ∧
    (∀ orc count fuel, 65535 ≤ count →
        (∀ i, (orc i).sendErr = none) → (∀ i, (orc i).stopped = false) →
        pingLoop orc count fuel 1 initStats [] = none) := by
  constructor
  · intro orc count fuel h1 h2 hf hs hst
    have hrun := pingLoop_ok_run orc count hs hst h1 h2 fuel 1 initStats [] le_rfl
      (by omega) (by omega)
    have hcnt : count + 1 - 1 = count := by omega
    rw [hcnt] at hrun
    refine ⟨by simpa using hrun, ?_⟩
    rw [runStatsFrom_sent]
    simp [initStats]
  · intro orc count fuel hcnt hs hst
    exact pingLoop_unbounded_none orc count hcnt hs hst fuel 1 initStats [] (by omega)

/-- C10 witness: a two cycle all timeout run terminates with sent 2, while
    with count 65535 the same oracle gives no return within 7 units of
    fuel. -/
theorem seqno_wrap_termination_witness :
    (pingLoop orcTO 2 3 1 initStats [] =
        some ⟨none, runStatsFrom orcTO 1 2 initStats, true, runTraceFrom orcTO 1 2⟩ ∧
      (runStatsFrom orcTO 1 2 initStats).sent = 2) ∧
    pingLoop orcTO 65535 7 1 initStats [] = none :=
  ⟨seqno_wrap_termination.1 orcTO 2 3 (by decide) (by decide) (by decide)
      (fun _ => rfl) (fun _ => rfl),
   seqno_wrap_termination.2 orcTO 65535 7 (by decide) (fun _ => rfl) (fun _ => rfl)⟩

/-- C6 counterexample: with count 65535 and every echo timing out, the claimed
    run completion fails: the loop never returns, because the uint16_t
    sequence counter wraps before exceeding count. -/
theorem all_timeout_run_65535_diverges : runNeverReturns 65535 := by
  intro fuel
  exact pingLoop_unbounded_none orcTO 65535 (by omega) (fun _ => rfl) (fun _ => rfl)
    fuel 1 initStats [] (by omega)

/-- C6 amended: for count n between 1 and 65534, an unstopped run whose sends
    succeed and in which no reply is ever recorded completes normally with
    the NULL return and the socket closed, with sent n, lost n, received 0,
    min still at its 1e9 sentinel and mean and variance still 0: the division
    of the statistics update sits only in the success branch, where received
    is at least 1, and is never executed. -/
theorem all_timeout_bounded_run (orc : Nat → CycleOracle) (n fuel : Nat)
    (h1 : 1 ≤ n) (h2 : n ≤ 65534) (hf : n < fuel)
    (hs : ∀ i, (orc i).sendErr = none) (hst : ∀ i, (orc i).stopped = false)
    (hto : ∀ i, (orc i).elapsed = 0) :
    pingLoop orc n fuel 1 initStats [] =
      some ⟨none, ⟨n, 0, n, 0, 1000000000, 0, 0, 0, 0⟩, true, runTraceFrom orc 1 n⟩ := by
  have hrun := pingLoop_ok_run orc n hs hst h1 h2 fuel 1 initStats [] le_rfl
    (by omega) (by omega)
  have hcnt : n + 1 - 1 = n := by omega
  rw [hcnt] at hrun
  rw [hrun]
  rw [runStatsFrom_all_lost orc hto n 1 initStats rfl]
  simp [initStats]

/-- C6 amended witness: the two cycle all timeout run ends with sent 2,
    lost 2, received 0 and untouched min, mean and variance. -/
theorem all_timeout_bounded_run_witness :
    pingLoop orcTO 2 3 1 initStats [] =
      some ⟨none, ⟨2, 0, 2, 0, 1000000000, 0, 0, 0, 0⟩, true, runTraceFrom orcTO 1 2⟩ :=
  all_timeout_bounded_run orcTO 2 3 (by decide) (by decide) (by decide)
    (fun _ => rfl) (fun _ => rfl) (fun _ => rfl)

/-- C8 counterexample: a cycle whose receive phase sees one would block
    recvfrom with the timeout already expired ends in timeout with
    bytesReceived equal minus one, and the run passes minus one, not zero, to
    the onReceive hook. -/
theorem timeout_bytes_minus_one :
    __ping_recv__ 54 16 54 tbl0 0 [evTimeout] = some (false, -1, tbl0) ∧
    pingLoop orcTO 1 2 1 initStats [] =
      some ⟨none, ⟨1, 0, 1, 0, 1000000000, 0, 0, 0, 0⟩, true, [-1]⟩ ∧
    (-1 : Int) ≠ 0 :=
  ⟨rfl, by decide, by decide⟩

/-- C8 amended: onReceive is invoked exactly once per completed cycle, its
    trace over a returning run being exactly as long as the sent counter, and
    on a cycle whose receive phase ends in timeout the argument is the last
    recvfrom return value, which is at most zero, typically minus one, rather
    than necessarily zero. -/
theorem onReceive_per_cycle :
    (∀ orc count fuel out, pingLoop orc count fuel 1 initStats [] = some out →
        out.onReceiveTrace.length = out.stats.sent) ∧
    (∀ off cap sockfd tbl b0 evs b tbl2,
        __ping_recv__ off cap sockfd tbl b0 evs = some (false, b, tbl2) → b ≤ 0) := by
  constructor
  · intro orc count fuel out h
    have := pingLoop_trace_len orc count fuel 1 initStats [] out h
    simpa [initStats] using this
  · intro off cap sockfd tbl b0 evs b tbl2 h
    induction evs generalizing tbl b0 with
    | nil => exact absurd h (by simp [__ping_recv__])
    | cons it rest ih =>
        rw [__ping_recv__] at h
        split at h
        · simp at h
        · dsimp only at h
          by_cases hr : it.ret ≤ 0
          · rw [if_pos hr] at h
            split at h
            · exact ih _ _ h
            · simp only [Option.some.injEq, Prod.mk.injEq] at h
              omega
          · rw [if_neg hr] at h
            split at h
            · exact ih _ _ h
            · split at h
              · split at h
                · simp at h
                · exact ih _ _ h
              · exact ih _ _ h

/-- C8 amended witness: a receive phase ending in timeout after a zero length
    recvfrom leaves a byte count of at most zero. -/
theorem onReceive_per_cycle_witness :
    __ping_recv__ 54 16 54 tbl0 0 [evZero] = some (false, 0, tbl0) ∧ (0 : Int) ≤ 0 :=
  ⟨rfl, onReceive_per_cycle.2 54 16 54 tbl0 0 [evZero] 0 tbl0 rfl⟩

/-- The incremental mean stays between any lower bound of both the old mean
    and the new sample and any upper bound of both. -/
theorem mean_step_bounds (r : Nat) (m q lo hi : ℚ) (h1 : lo ≤ m) (h2 : m ≤ hi)
    (h3 : lo ≤ q) (h4 : q ≤ hi) :
    lo ≤ ((r : ℚ) * m + q) / ((r : ℚ) + 1) ∧ ((r : ℚ) * m + q) / ((r : ℚ) + 1) ≤ hi := by
  have hr : (0 : ℚ) < (r : ℚ) + 1 := by positivity
  constructor
  · rw [le_div_iff hr]
    nlinarith [mul_le_mul_of_nonneg_left h1 (by positivity : (0 : ℚ) ≤ (r : ℚ))]
  · rw [div_le_iff hr]
    nlinarith [mul_le_mul_of_nonneg_left h2 (by positivity : (0 : ℚ) ≤ (r : ℚ))]

/-- The min, mean, max relation after one success: with the invariant holding
    before, the updated min is at most the updated mean, which is at most the
    updated max, for any sample q strictly between 0 and the 1e9 sentinel. -/
theorem succ_stats_bounds (lo hi m q : ℚ) (r : Nat)
    (h0 : r = 0 → lo = 1000000000 ∧ hi = 0 ∧ m = 0)
    (h1 : 1 ≤ r → lo ≤ m ∧ m ≤ hi)
    (hq0 : 0 < q) (hqlt : q < 1000000000) :
    (if q < lo then q else lo) ≤ ((((r + 1 : ℕ) : ℚ) - 1) * m + q) / ((r + 1 : ℕ) : ℚ) ∧
    ((((r + 1 : ℕ) : ℚ) - 1) * m + q) / ((r + 1 : ℕ) : ℚ) ≤ (if q > hi then q else hi) := by
  have hform : ((((r + 1 : ℕ) : ℚ) - 1) * m + q) / ((r + 1 : ℕ) : ℚ)
      = ((r : ℚ) * m + q) / ((r : ℚ) + 1) := by
    push_cast
    ring
  rw [hform]
  rcases Nat.eq_zero_or_pos r with hr | hr
  · obtain ⟨hlo, hhi, hm⟩ := h0 hr
    subst hlo hhi hm hr
    rw [if_pos hqlt, if_pos hq0]
    have hmean : ((0 : ℕ) : ℚ) * 0 + q = q := by push_cast; ring
    rw [hmean]
    have hden0 : ((0 : ℕ) : ℚ) + 1 = 1 := by push_cast; ring
    rw [hden0, div_one]
    exact ⟨le_rfl, le_rfl⟩
  · have hb := h1 hr
    have hlo2 : (if q < lo then q else lo) ≤ m ∧ (if q < lo then q else lo) ≤ q := by
      split_ifs with h
      · exact ⟨le_of_lt (lt_of_lt_of_le h hb.1), le_rfl⟩
      · exact ⟨hb.1, not_lt.mp h⟩
    have hhi2 : m ≤ (if q > hi then q else hi) ∧ q ≤ (if q > hi then q else hi) := by
      split_ifs with h
      · exact ⟨le_of_lt (lt_of_le_of_lt hb.2 h), le_rfl⟩
      · exact ⟨hb.2, not_lt.mp h⟩
    exact mean_step_bounds r m q _ _ hlo2.1 hhi2.1 hlo2.2 hhi2.2

/-- The statistics invariant is preserved by every cycle update. -/
theorem statsInv_cycleUpdate (s : RunStats) (e : Nat) (hs : statsInv s) :
    statsInv (cycleUpdate s e) := by
  by_cases hem : UL e = 0
  · simp only [cycleUpdate]
    rw [if_neg (by simp [hem])]
    exact ⟨fun h => hs.1 h, fun h => hs.2 h⟩
  · have hub : UL e < 4294967296 := Nat.mod_lt _ (by norm_num)
    have hq0 : 0 < ((UL e : ℚ)) / 1000 := by
      apply div_pos
      · exact_mod_cast Nat.pos_of_ne_zero hem
      · norm_num
    have hqlt : ((UL e : ℚ)) / 1000 < 1000000000 := by
      rw [div_lt_iff (by norm_num : (0 : ℚ) < 1000)]
      have h2 : (UL e : ℚ) < 4294967296 := by exact_mod_cast hub
      linarith
    simp only [cycleUpdate]
    rw [if_pos hem]
    constructor
    · intro h
      simp at h
    · intro _
      exact succ_stats_bounds s.minT s.maxT s.meanT ((UL e : ℚ) / 1000) s.received
        hs.1 hs.2 hq0 hqlt

/-- C9: in every returning run with received at least 1, the final statistics
    satisfy min at most mean and mean at most max, where min and max track the
    componentwise extrema of the recorded elapsed times and the mean is
    updated incrementally as received minus 1 times the old mean plus the new
    elapsed time, divided by received. -/
theorem min_le_mean_le_max (orc : Nat → CycleOracle) (count fuel : Nat) (out : LoopOut)
    (hrun : pingLoop orc count fuel 1 initStats [] = some out)
    (hrec : 1 ≤ out.stats.received) :
    out.stats.minT ≤ out.stats.meanT ∧ out.stats.meanT ≤ out.stats.maxT := by
  have hinv : statsInv out.stats :=
    pingLoop_preserve statsInv (fun s e h => statsInv_cycleUpdate s e h) orc count fuel 1
      initStats [] out hrun ⟨fun _ => ⟨rfl, rfl, rfl⟩, fun h => absurd h (by decide)⟩
  exact hinv.2 hrec

/-- C9 witness: a single cycle run answered after 500000 microseconds ends
    with min, mean and max all equal to 500 milliseconds. -/
theorem min_le_mean_le_max_witness :
    statsW9.minT ≤ statsW9.meanT ∧ statsW9.meanT ≤ statsW9.maxT :=
  min_le_mean_le_max orcW9 1 2 ⟨none, statsW9, true, [100]⟩
    (by norm_num [pingLoop, cycleUpdate, UL, initStats, statsW9, orcW9]) (by decide)

end ThreadSafePing
